import Mathlib

/-!
Verification of the acquisition-function optimization subsystem of the
trieste repository (`trieste/acquisition/optimizer.py`) and the inducing-point
validation logic of `trieste/models/bayesfunc/architectures.py`, via a shallow
embedding in Lean 4.

Modelling conventions:
* A tensor of shape `[N, D]` is a `List` of `N` points, each a `List` of
  length `D`.  A single point of shape `[D]` is a `List` of length `D`.
* Scores are rationals (`ℚ`) where the claims are combinatorial (discrete
  argmax, shape checks), and reals (`ℝ`) on the continuous box path where the
  sigmoid bijector and its logit inverse live.
* Fallible code (`tf.debugging.assert_shapes`, `raise ValueError`) is
  modelled with `Except String`.
* The quasi-random sampler and the L-BFGS routine are external collaborators
  (`tfp.optimizer.lbfgs_minimize`, Sobol sampling); they enter the model as
  function parameters (`sample`, `lbfgs`), constrained only by hypotheses.
-/

namespace Trieste

/-- A discrete search space: an ordered, finite collection of points
(`trieste.space.DiscreteSearchSpace`). -/
structure DiscreteSearchSpace (α : Type) where
  points : List α

/-- A continuous box search space (`trieste.space.Box`): elementwise bounds
`lower` and `upper`, each of length `D`. -/
structure Box where
  lower : List ℝ
  upper : List ℝ

/-- Model of `tf.argmax(values, axis=0)` on a single column: the index of the
first occurrence of the maximum value (`tf.argmax` returns the smallest index
on ties).  On an empty list, returns `0`. -/
def argmaxFirst [LinearOrder β] : List β → Nat
  | [] => 0
  | [_] => 0
  | x :: y :: ys =>
    if (y :: ys).getD (argmaxFirst (y :: ys)) x ≤ x then 0
    else argmaxFirst (y :: ys) + 1

/-- Model of the Python slice `points[i : i + 1]` on a tensor: drop the first
`i` rows, keep at most one.  Like TF strided slice, an out-of-range start
yields an empty result rather than an error. -/
def tfSliceOne (l : List α) (i : Nat) : List α := (l.drop i).take 1

/-- The score at row `j` of the `[N, 1]`-shaped value tensor: the single entry
of row `j` (column `0`). -/
def scoreAt [Inhabited β] (vals : List (List β)) (j : Nat) : β :=
  (vals.getD j []).headI

/-- The message of the shape-contract assertion in `_discrete_space`,
identifying the violating shape (here: the list of row lengths). -/
def shapeErrorMessage (rowLengths : List Nat) : String :=
  "The result of function target_func has an invalid shape: " ++
    toString rowLengths ++ "."

/-- Model of `_discrete_space` from `trieste/acquisition/optimizer.py`:
evaluate `target_func` on the whole point set, assert the result has shape
`("_", 1)` (rank 2 with trailing dimension 1 — the leading dimension is a
wildcard, as in `tf.debugging.assert_shapes [(values, ("_", 1))]`), take the
first argmax along axis 0, and return the slice `points[i : i + 1]`. -/
def discreteSpaceOptimize [LinearOrder β] [Inhabited β]
    (space : DiscreteSearchSpace α) (target_func : List α → List (List β)) :
    Except String (List α) :=
  let vals := target_func space.points
  if vals.all (fun row => row.length == 1) then
    let i := argmaxFirst (vals.map (fun row => row.headI))
    .ok (tfSliceOne space.points i)
  else
    .error (shapeErrorMessage (vals.map List.length))

/-- The discretization budget of `_box`:
`tf.minimum(2000, 500 * tf.shape(space.lower)[-1])`. -/
def discretizationBudget (d : Nat) : Nat := min 2000 (500 * d)

/-- The trial search space built by `_box`: `space.discretize(budget)`,
where discretization draws low-discrepancy samples through the external
sampler `sample`. -/
def boxTrialSpace (space : Box) (sample : Nat → List (List ℝ)) :
    DiscreteSearchSpace (List ℝ) :=
  ⟨sample (discretizationBudget space.lower.length)⟩

/-- The standard logistic sigmoid `1 / (1 + exp (-x))`. -/
noncomputable def sigmoid (x : ℝ) : ℝ := 1 / (1 + Real.exp (-x))

/-- One coordinate of `tfp.bijectors.Sigmoid(low, high).forward`:
`lo + (hi - lo) * sigmoid x`, mapping ℝ onto the open interval `(lo, hi)`. -/
noncomputable def bijForward (lo hi x : ℝ) : ℝ := lo + (hi - lo) * sigmoid x

/-- One coordinate of `tfp.bijectors.Sigmoid(low, high).inverse`: the logit
of the rescaled input, `log ((y - lo) / (hi - y))`. -/
noncomputable def bijInverse (lo hi y : ℝ) : ℝ := Real.log ((y - lo) / (hi - y))

/-- Elementwise `forward` over the coordinate lists (the bijector broadcasts
across the `D` dimensions of the box). -/
noncomputable def bijForwardVec : List ℝ → List ℝ → List ℝ → List ℝ
  | lo :: los, hi :: his, x :: xs => bijForward lo hi x :: bijForwardVec los his xs
  | _, _, _ => []

/-- Elementwise `inverse` over the coordinate lists. -/
noncomputable def bijInverseVec : List ℝ → List ℝ → List ℝ → List ℝ
  | lo :: los, hi :: his, y :: ys => bijInverse lo hi y :: bijInverseVec los his ys
  | _, _, _ => []

/-- The result record of `tfp.optimizer.lbfgs_minimize`: the final position
and the convergence flag. -/
structure LbfgsResult where
  position : List ℝ
  converged : Bool

/-- The warning printed by `_box` when L-BFGS reports non-convergence. -/
def lbfgsWarning : String :=
  "L-BFGS optimization produced result, but failed to converge."

/-- The internal objective `_objective` of `_box`:
`tf.squeeze(-target_func(bijector.forward(x)), axis=-1)` — the negated,
forward-transformed score with the trailing singleton dimension removed,
yielding a plain scalar.  `target_func` is batched, so the single point `x`
is wrapped into a batch of one. -/
noncomputable def boxObjective (space : Box)
    (target_func : List (List ℝ) → List (List ℝ)) (x : List ℝ) : ℝ :=
  -((target_func [bijForwardVec space.lower space.upper x]).headI.headI)

/-- The outcome of the box path: the returned point (of shape `[1, D]`,
represented by its single row) together with the warnings emitted. -/
structure BoxRunResult where
  result : List ℝ
  warnings : List String

/-- Model of `_box` from `trieste/acquisition/optimizer.py`:
1. discretize the box into `min(2000, 500 * D)` sampled points;
2. seed with the discrete maximizer on that trial space;
3. run the external L-BFGS routine on the negated, sigmoid-transformed
   objective, started from the inverse-transformed seed (the source makes a
   defensive `tf.identity` copy of the start, an identity in value semantics);
4. on non-convergence emit a warning but still return;
5. return the forward transform of the final position. -/
noncomputable def boxOptimize (space : Box) (sample : Nat → List (List ℝ))
    (lbfgs : (List ℝ → ℝ) → List ℝ → LbfgsResult)
    (target_func : List (List ℝ) → List (List ℝ)) :
    Except String BoxRunResult :=
  match discreteSpaceOptimize (boxTrialSpace space sample) target_func with
  | .error e => .error e
  | .ok initial =>
    let initialPoint := initial.headI
    let r := lbfgs (boxObjective space target_func)
      (bijInverseVec space.lower space.upper initialPoint)
    .ok { result := bijForwardVec space.lower space.upper r.position
          warnings := if r.converged then [] else [lbfgsWarning] }

/-- The runtime variant of the search space handed to the dispatcher.
`unregistered` stands for any `SearchSpace` subtype for which no
implementation was registered with `optimize.register`. -/
inductive AnySearchSpace where
  | discrete (points : List (List ℝ))
  | box (b : Box)
  | unregistered

/-- Model of the `functools.singledispatch` entry point `optimize`:
`DiscreteSearchSpace` and `Box` dispatch to their registered
implementations; any other type falls through to the base `optimize`
function, whose body is only a docstring, so the call returns Python `None`
(modelled as `Option.none`) without raising. -/
noncomputable def optimize (space : AnySearchSpace)
    (sample : Nat → List (List ℝ))
    (lbfgs : (List ℝ → ℝ) → List ℝ → LbfgsResult)
    (target_func : List (List ℝ) → List (List ℝ)) :
    Except String (Option (List (List ℝ))) :=
  match space with
  | .discrete pts => (discreteSpaceOptimize ⟨pts⟩ target_func).map some
  | .box b => (boxOptimize b sample lbfgs target_func).map (fun r => some [r.result])
  | .unregistered => .ok none

/-- The runtime type of the `search_space` argument of
`build_sqexp_deep_inv_wishart`: either a `Box` (as annotated) or some other
search-space object (the `isinstance(search_space, Box)` guard exists because
Python does not enforce the annotation). -/
inductive PySearchSpace where
  | box (lower upper : List ℚ)
  | nonBox
deriving DecidableEq

/-- An abstract record of the model assembled by
`build_sqexp_deep_inv_wishart` once all validation passed: the inducing batch
size, layer count, and the padded query-point set from which inducing points
are drawn. -/
structure BFModel where
  inducingBatch : Nat
  numLayers : Nat
  paddedQueryPoints : List (List ℚ)
deriving DecidableEq

/-- The remainder of `build_sqexp_deep_inv_wishart` after query-point
padding: the observation validation (`ValueError` on wrong output dimension
or count mismatch) followed by network assembly. -/
def buildRest (padded : List (List ℚ)) (num_data num_layers num_inducing : Nat)
    (observations : Option (List (List ℚ))) : Except String BFModel :=
  match observations with
  | some obs =>
    if (obs.headI).length != 1 then
      .error "Output dim must be 1 for this model"
    else if obs.length != num_data then
      .error "Received a different number of query points and observations"
    else
      .ok ⟨num_inducing, num_layers, padded⟩
  | none => .ok ⟨num_inducing, num_layers, padded⟩

/-- Model of the validation and padding phase of
`build_sqexp_deep_inv_wishart` in `trieste/models/bayesfunc/architectures.py`.
The random draws (`sample_sobol`, `np.random.randn`, `np.random.choice`) only
produce padding values irrelevant to the control flow modelled here; they are
rendered as deterministic zero points of the input dimension.  Order of
operations follows the source: pad the query points, raising `ValueError`
when a non-`Box` search space is supplied, then hand over to `buildRest` for
the observation checks and network assembly. -/
def build_sqexp_deep_inv_wishart (query_points : List (List ℚ))
    (num_layers num_inducing : Nat) (observations : Option (List (List ℚ)))
    (search_space : Option PySearchSpace) : Except String BFModel :=
  let num_data := query_points.length
  let input_dim := (query_points.headI).length
  let pad := fun (k : Nat) => List.replicate k (List.replicate input_dim (0 : ℚ))
  if num_inducing > query_points.length then
    match search_space with
    | some (PySearchSpace.box _ _) =>
      buildRest (query_points ++ pad (num_inducing - query_points.length))
        num_data num_layers num_inducing observations
    | some _ =>
      .error "Currently only `Box` instances are supported for `search_space`."
    | none =>
      buildRest (query_points ++ pad (num_inducing - query_points.length))
        num_data num_layers num_inducing observations
  else
    buildRest query_points num_data num_layers num_inducing observations

/-- `getD` does not depend on the default at in-range indices. -/
lemma getD_irrel (l : List β) (d d' : β) (k : Nat) (hk : k < l.length) :
    l.getD k d = l.getD k d' := by
  rw [List.getD_eq_getElem l d hk, List.getD_eq_getElem l d' hk]

/-- The first-argmax returns an in-range index whose entry is maximal, and
which is the least index among entries attaining the maximum. -/
lemma argmaxFirst_spec [LinearOrder β] (d : β) (l : List β) (h : l ≠ []) :
    argmaxFirst l < l.length ∧
      (∀ k, k < l.length → l.getD k d ≤ l.getD (argmaxFirst l) d) ∧
      (∀ k, k < l.length → l.getD (argmaxFirst l) d ≤ l.getD k d →
        argmaxFirst l ≤ k) := by
  induction l with
  | nil => exact absurd rfl h
  | cons x t ih =>
    cases t with
    | nil =>
      refine ⟨Nat.zero_lt_one, ?_, ?_⟩
      · intro k hk
        have hk0 : k = 0 := by
          simp only [List.length_cons, List.length_nil] at hk
          omega
        subst hk0
        exact le_refl _
      · intro k _ _
        exact Nat.zero_le k
    | cons y ys =>
      obtain ⟨ih1, ih2, ih3⟩ := ih (List.cons_ne_nil y ys)
      have hjd : (y :: ys).getD (argmaxFirst (y :: ys)) x =
          (y :: ys).getD (argmaxFirst (y :: ys)) d := getD_irrel _ _ _ _ ih1
      have hunfold : argmaxFirst (x :: y :: ys) =
          if (y :: ys).getD (argmaxFirst (y :: ys)) x ≤ x then 0
          else argmaxFirst (y :: ys) + 1 := rfl
      by_cases hc : (y :: ys).getD (argmaxFirst (y :: ys)) x ≤ x
      · have hA : argmaxFirst (x :: y :: ys) = 0 := by rw [hunfold, if_pos hc]
        rw [hA]
        refine ⟨Nat.succ_pos _, ?_, ?_⟩
        · intro k hk
          cases k with
          | zero => exact le_refl _
          | succ k' =>
            rw [List.getD_cons_succ, List.getD_cons_zero]
            calc (y :: ys).getD k' d ≤ (y :: ys).getD (argmaxFirst (y :: ys)) d :=
                  ih2 k' (Nat.lt_of_succ_lt_succ hk)
              _ = (y :: ys).getD (argmaxFirst (y :: ys)) x := hjd.symm
              _ ≤ x := hc
        · intro k _ _
          exact Nat.zero_le k
      · have hA : argmaxFirst (x :: y :: ys) = argmaxFirst (y :: ys) + 1 := by
          rw [hunfold, if_neg hc]
        push_neg at hc
        rw [hA]
        refine ⟨Nat.succ_lt_succ ih1, ?_, ?_⟩
        · intro k hk
          rw [List.getD_cons_succ]
          cases k with
          | zero =>
            rw [List.getD_cons_zero]
            exact le_of_lt (hjd ▸ hc)
          | succ k' =>
            rw [List.getD_cons_succ]
            exact ih2 k' (Nat.lt_of_succ_lt_succ hk)
        · intro k hk hle
          cases k with
          | zero =>
            exfalso
            rw [List.getD_cons_succ, List.getD_cons_zero] at hle
            exact absurd (hjd ▸ hc) (not_lt.mpr hle)
          | succ k' =>
            rw [List.getD_cons_succ, List.getD_cons_succ] at hle
            exact Nat.succ_le_succ (ih3 k' (Nat.lt_of_succ_lt_succ hk) hle)

/-- Reading the mapped score column agrees with `scoreAt` at in-range
indices. -/
lemma scores_getD [Inhabited β] (vals : List (List β)) (k : Nat)
    (hk : k < vals.length) (q : β) :
    (vals.map (fun row => row.headI)).getD k q = scoreAt vals k := by
  have hk' : k < (vals.map (fun row => row.headI)).length := by
    simpa using hk
  rw [List.getD_eq_getElem _ _ hk', List.getElem_map, scoreAt,
    List.getD_eq_getElem _ _ hk]

/-- At an in-range index, the slice `points[i : i + 1]` is the singleton
holding the `i`-th point. -/
lemma tfSliceOne_eq (d : α) (l : List α) (i : Nat) (hi : i < l.length) :
    tfSliceOne l i = [l.getD i d] := by
  induction l generalizing i with
  | nil => exact absurd hi (by simp)
  | cons a t ih =>
    cases i with
    | zero => simp [tfSliceOne, List.getD_cons_zero]
    | succ i' =>
      have hstep : tfSliceOne (a :: t) (i' + 1) = tfSliceOne t i' := rfl
      rw [hstep, List.getD_cons_succ]
      exact ih i' (Nat.lt_of_succ_lt_succ hi)

/-- In-range `getD` produces a member of the list. -/
lemma getD_mem_of_lt (l : List α) (i : Nat) (hi : i < l.length) (d : α) :
    l.getD i d ∈ l := by
  rw [List.getD_eq_getElem l d hi]
  exact List.getElem_mem hi

/-- Claim C1: on a discrete space of `N ≥ 1` points of dimension `D`, with an
acquisition function of output shape `[N, 1]`, `optimize` succeeds and
returns the slice `[1, D]` around a point of the set whose score is maximal,
and whose index is the least among the maximizing indices. -/
theorem discrete_optimize_argmax (N D : Nat)
    (space : DiscreteSearchSpace (List ℚ))
    (target_func : List (List ℚ) → List (List ℚ))
    (hN : space.points.length = N) (hNpos : 1 ≤ N)
    (hD : ∀ p ∈ space.points, p.length = D)
    (hlen : (target_func space.points).length = N)
    (hrows : ∀ row ∈ target_func space.points, row.length = 1) :
    ∃ i, i < N ∧
      discreteSpaceOptimize space target_func = .ok [space.points.getD i []] ∧
      space.points.getD i [] ∈ space.points ∧
      (space.points.getD i []).length = D ∧
      (∀ j, j < N →
        scoreAt (target_func space.points) j ≤
          scoreAt (target_func space.points) i) ∧
      (∀ j, j < N →
        scoreAt (target_func space.points) i ≤
          scoreAt (target_func space.points) j → i ≤ j) := by
  have hall : (target_func space.points).all (fun row => row.length == 1) = true := by
    rw [List.all_eq_true]
    intro row hr
    simpa using hrows row hr
  have hslen : (target_func space.points |>.map (fun row => row.headI)).length = N := by
    simpa using hlen
  have hsnil : (target_func space.points |>.map (fun row => row.headI)) ≠ [] := by
    intro hcon
    rw [hcon] at hslen
    simp at hslen
    omega
  obtain ⟨h1, h2, h3⟩ := argmaxFirst_spec (0 : ℚ)
    (target_func space.points |>.map (fun row => row.headI)) hsnil
  refine ⟨argmaxFirst (target_func space.points |>.map (fun row => row.headI)),
    ?_, ?_, ?_, ?_, ?_, ?_⟩
  · rw [← hslen]
    exact h1
  · show discreteSpaceOptimize space target_func = _
    rw [discreteSpaceOptimize]
    simp only [hall, if_true]
    rw [tfSliceOne_eq ([] : List ℚ)]
    rw [hN, ← hslen]
    exact h1
  · exact getD_mem_of_lt _ _ (by rw [hN, ← hslen]; exact h1) _
  · exact hD _ (getD_mem_of_lt _ _ (by rw [hN, ← hslen]; exact h1) _)
  · intro j hj
    have hiN : argmaxFirst (target_func space.points |>.map (fun row => row.headI)) < N := by
      rw [← hslen]
      exact h1
    have hsc : ∀ k, k < N →
        (target_func space.points |>.map (fun row => row.headI)).getD k 0 =
          scoreAt (target_func space.points) k := fun k hk =>
      scores_getD (target_func space.points) k (by rw [hlen]; exact hk) 0
    have := h2 j (by rw [hslen]; exact hj)
    rwa [hsc j hj, hsc _ hiN] at this
  · intro j hj hle
    have hiN : argmaxFirst (target_func space.points |>.map (fun row => row.headI)) < N := by
      rw [← hslen]
      exact h1
    have hsc : ∀ k, k < N →
        (target_func space.points |>.map (fun row => row.headI)).getD k 0 =
          scoreAt (target_func space.points) k := fun k hk =>
      scores_getD (target_func space.points) k (by rw [hlen]; exact hk) 0
    refine h3 j (by rw [hslen]; exact hj) ?_
    rwa [hsc j hj, hsc _ hiN]

/-- Concrete run of claim C1: the spec's end-to-end discrete scenario, points
`{(0), (1), (2)}` with the identity acquisition function, which must select
`(2)` at index `2`. -/
theorem discrete_optimize_argmax_witness :
    ∃ i, i < 3 ∧
      discreteSpaceOptimize (⟨[[0], [1], [2]]⟩ : DiscreteSearchSpace (List ℚ)) id =
        .ok [([[0], [1], [2]] : List (List ℚ)).getD i []] ∧
      ([[0], [1], [2]] : List (List ℚ)).getD i [] ∈
        ([[0], [1], [2]] : List (List ℚ)) ∧
      (([[0], [1], [2]] : List (List ℚ)).getD i []).length = 1 ∧
      (∀ j, j < 3 →
        scoreAt (id [([0] : List ℚ), [1], [2]]) j ≤
          scoreAt (id [([0] : List ℚ), [1], [2]]) i) ∧
      (∀ j, j < 3 →
        scoreAt (id [([0] : List ℚ), [1], [2]]) i ≤
          scoreAt (id [([0] : List ℚ), [1], [2]]) j → i ≤ j) :=
  discrete_optimize_argmax 3 1 ⟨[[0], [1], [2]]⟩ id rfl (by decide)
    (by decide) rfl (by decide)

/-- Claim C3, counterexample: on a discrete space of `N = 1` point, an
acquisition function returning shape `[2, 1]` — which differs from `[N, 1] =
[1, 1]` — raises no shape-contract error: the wildcard leading dimension of
`tf.debugging.assert_shapes [(values, ("_", 1))]` accepts it, `argmax`
selects index `1`, and the out-of-range slice silently yields an empty
result. -/
theorem discrete_shape_check_counterexample :
    discreteSpaceOptimize (⟨[[0]]⟩ : DiscreteSearchSpace (List ℚ))
      (fun _ => [[1], [2]]) = .ok [] := rfl

/-- Claim C3 (amended): the discrete maximizer validates only the trailing
dimension of the acquisition output — any output containing a row whose
length is not `1` (for example shape `[N, 2]`) fails with the shape-contract
error naming the violating shape, while the leading dimension is left
unchecked. -/
theorem discrete_shape_check_amended (space : DiscreteSearchSpace (List ℚ))
    (target_func : List (List ℚ) → List (List ℚ)) (row : List ℚ)
    (hrow : row ∈ target_func space.points) (hne : row.length ≠ 1) :
    discreteSpaceOptimize space target_func =
      .error (shapeErrorMessage ((target_func space.points).map List.length)) := by
  have hall : (target_func space.points).all (fun row => row.length == 1) ≠ true := by
    intro hcon
    rw [List.all_eq_true] at hcon
    exact hne (by simpa using hcon row hrow)
  rw [discreteSpaceOptimize]
  simp only [if_neg hall]

/-- Concrete run of the amended claim C3: a `[1, 2]`-shaped output (wrong
trailing dimension) on a one-point space raises the shape-contract error
reporting the row lengths `[2]`. -/
theorem discrete_shape_check_amended_witness :
    discreteSpaceOptimize (⟨[[0]]⟩ : DiscreteSearchSpace (List ℚ))
      (fun _ => [[1, 2]]) = .error (shapeErrorMessage [2]) :=
  discrete_shape_check_amended ⟨[[0]]⟩ (fun _ => [[1, 2]]) [1, 2]
    (by simp) (by decide)

/-- The sigmoid is strictly positive. -/
lemma sigmoid_pos (x : ℝ) : 0 < sigmoid x := by
  rw [sigmoid]
  have h := Real.exp_pos (-x)
  exact div_pos one_pos (by linarith)

/-- The sigmoid is strictly below one. -/
lemma sigmoid_lt_one (x : ℝ) : sigmoid x < 1 := by
  rw [sigmoid]
  have h := Real.exp_pos (-x)
  rw [div_lt_one (by linarith)]
  linarith

/-- With `lo < hi`, every forward image lies strictly above `lo`. -/
lemma bijForward_gt (lo hi x : ℝ) (h : lo < hi) : lo < bijForward lo hi x := by
  rw [bijForward]
  nlinarith [sigmoid_pos x, sigmoid_lt_one x]

/-- With `lo < hi`, every forward image lies strictly below `hi`. -/
lemma bijForward_lt (lo hi x : ℝ) (h : lo < hi) : bijForward lo hi x < hi := by
  rw [bijForward]
  nlinarith [sigmoid_pos x, sigmoid_lt_one x]

/-- The sigmoid bijector round-trips on the open interval: `forward ∘ inverse`
is the identity at every `p` with `lo < p < hi`. -/
lemma bijForward_bijInverse (lo hi p : ℝ) (h1 : lo < p) (h2 : p < hi) :
    bijForward lo hi (bijInverse lo hi p) = p := by
  have hp : 0 < p - lo := by linarith
  have hh : 0 < hi - p := by linarith
  have ht : 0 < (p - lo) / (hi - p) := div_pos hp hh
  rw [bijForward, bijInverse, sigmoid, Real.exp_neg, Real.exp_log ht]
  have hne1 : p - lo ≠ 0 := ne_of_gt hp
  have hne2 : hi - p ≠ 0 := ne_of_gt hh
  rw [inv_div]
  have hd : 0 < 1 + (hi - p) / (p - lo) := by positivity
  have hne3 : hi - lo ≠ 0 := sub_ne_zero.mpr (by linarith)
  field_simp

/-- The elementwise forward transform truncates to the shortest of the three
coordinate lists. -/
lemma bijForwardVec_length (lo hi xs : List ℝ) :
    (bijForwardVec lo hi xs).length = min lo.length (min hi.length xs.length) := by
  induction lo generalizing hi xs with
  | nil => cases hi <;> cases xs <;> simp [bijForwardVec]
  | cons a lo' ih =>
    cases hi with
    | nil => cases xs <;> simp [bijForwardVec]
    | cons b hi' =>
      cases xs with
      | nil => simp [bijForwardVec]
      | cons x xs' =>
        simp only [bijForwardVec, List.length_cons, ih]
        omega

/-- Coordinate `i` of the elementwise forward transform is the scalar
transform of the `i`-th bounds and input. -/
lemma bijForwardVec_getD (lo hi xs : List ℝ) (i : Nat)
    (h1 : i < lo.length) (h2 : i < hi.length) (h3 : i < xs.length) :
    (bijForwardVec lo hi xs).getD i 0 =
      bijForward (lo.getD i 0) (hi.getD i 0) (xs.getD i 0) := by
  induction lo generalizing hi xs i with
  | nil => exact absurd h1 (by simp)
  | cons a lo' ih =>
    cases hi with
    | nil => exact absurd h2 (by simp)
    | cons b hi' =>
      cases xs with
      | nil => exact absurd h3 (by simp)
      | cons x xs' =>
        cases i with
        | zero => simp [bijForwardVec, List.getD_cons_zero]
        | succ i' =>
          simp only [bijForwardVec, List.getD_cons_succ]
          exact ih hi' xs' i' (Nat.lt_of_succ_lt_succ h1)
            (Nat.lt_of_succ_lt_succ h2) (Nat.lt_of_succ_lt_succ h3)

/-- Claim C2: for a box with `lower < upper` elementwise, any successful run
of the box maximizer — with any L-BFGS outcome, converged or not — returns a
point of dimension `D` that lies within `[lower, upper]` elementwise. -/
theorem box_optimize_in_bounds (space : Box) (sample : Nat → List (List ℝ))
    (lbfgs : (List ℝ → ℝ) → List ℝ → LbfgsResult)
    (target_func : List (List ℝ) → List (List ℝ)) (res : BoxRunResult)
    (hlen : space.lower.length = space.upper.length)
    (hlt : ∀ i, i < space.lower.length →
      space.lower.getD i 0 < space.upper.getD i 0)
    (hpos : ∀ g x, (lbfgs g x).position.length = space.lower.length)
    (hok : boxOptimize space sample lbfgs target_func = .ok res) :
    res.result.length = space.lower.length ∧
    ∀ i, i < space.lower.length →
      space.lower.getD i 0 ≤ res.result.getD i 0 ∧
      res.result.getD i 0 ≤ space.upper.getD i 0 := by
  rw [boxOptimize] at hok
  cases hds : discreteSpaceOptimize (boxTrialSpace space sample) target_func with
  | error e => rw [hds] at hok; exact absurd hok (by simp)
  | ok initial =>
    rw [hds] at hok
    simp only [Except.ok.injEq] at hok
    subst hok
    set pos := (lbfgs (boxObjective space target_func)
      (bijInverseVec space.lower space.upper initial.headI)).position with hposdef
    have hplen : pos.length = space.lower.length := hpos _ _
    have hrlen : (bijForwardVec space.lower space.upper pos).length =
        space.lower.length := by
      rw [bijForwardVec_length, ← hlen, hplen]
      omega
    refine ⟨hrlen, ?_⟩
    intro i hi
    rw [bijForwardVec_getD space.lower space.upper pos i hi (by omega) (by omega)]
    exact ⟨le_of_lt (bijForward_gt _ _ _ (hlt i hi)),
      le_of_lt (bijForward_lt _ _ _ (hlt i hi))⟩

/-- Concrete run of claim C2: the unit box `[0, 1]` in one dimension; the
returned point lies within the bounds. -/
theorem box_optimize_in_bounds_witness :
    ({ result := bijForwardVec [0] [1] [0], warnings := [] } : BoxRunResult).result.length
        = (Box.mk [0] [1]).lower.length ∧
    ∀ i, i < (Box.mk [0] [1]).lower.length →
      (Box.mk [0] [1]).lower.getD i 0 ≤
        ({ result := bijForwardVec [0] [1] [0], warnings := [] } :
          BoxRunResult).result.getD i 0 ∧
      ({ result := bijForwardVec [0] [1] [0], warnings := [] } :
          BoxRunResult).result.getD i 0 ≤
        (Box.mk [0] [1]).upper.getD i 0 :=
  box_optimize_in_bounds ⟨[0], [1]⟩ (fun _ => [[1 / 2]])
    (fun _ _ => ⟨[0], true⟩) (fun pts => pts.map (fun _ => [0]))
    ⟨bijForwardVec [0] [1] [0], []⟩ rfl
    (by
      intro i hi
      simp only [List.length_cons, List.length_nil] at hi
      have h0 : i = 0 := by omega
      subst h0
      norm_num)
    (fun _ _ => rfl) rfl

/-- Claim C10: for a box with `lower < upper` elementwise, the returned point
lies strictly inside the open box — `lower i < result i < upper i` in every
dimension — since it is the image of the sigmoid bijection, whose range is
the open interval; a boundary point is never returned. -/
theorem box_optimize_strictly_inside (space : Box)
    (sample : Nat → List (List ℝ))
    (lbfgs : (List ℝ → ℝ) → List ℝ → LbfgsResult)
    (target_func : List (List ℝ) → List (List ℝ)) (res : BoxRunResult)
    (hlen : space.lower.length = space.upper.length)
    (hlt : ∀ i, i < space.lower.length →
      space.lower.getD i 0 < space.upper.getD i 0)
    (hpos : ∀ g x, (lbfgs g x).position.length = space.lower.length)
    (hok : boxOptimize space sample lbfgs target_func = .ok res) :
    res.result.length = space.lower.length ∧
    ∀ i, i < space.lower.length →
      space.lower.getD i 0 < res.result.getD i 0 ∧
      res.result.getD i 0 < space.upper.getD i 0 := by
  rw [boxOptimize] at hok
  cases hds : discreteSpaceOptimize (boxTrialSpace space sample) target_func with
  | error e => rw [hds] at hok; exact absurd hok (by simp)
  | ok initial =>
    rw [hds] at hok
    simp only [Except.ok.injEq] at hok
    subst hok
    set pos := (lbfgs (boxObjective space target_func)
      (bijInverseVec space.lower space.upper initial.headI)).position with hposdef
    have hplen : pos.length = space.lower.length := hpos _ _
    have hrlen : (bijForwardVec space.lower space.upper pos).length =
        space.lower.length := by
      rw [bijForwardVec_length, ← hlen, hplen]
      omega
    refine ⟨hrlen, ?_⟩
    intro i hi
    rw [bijForwardVec_getD space.lower space.upper pos i hi (by omega) (by omega)]
    exact ⟨bijForward_gt _ _ _ (hlt i hi), bijForward_lt _ _ _ (hlt i hi)⟩

/-- Concrete run of claim C10: on the unit box, the returned coordinate is
strictly between the bounds. -/
theorem box_optimize_strictly_inside_witness :
    ({ result := bijForwardVec [0] [1] [1], warnings := [] } : BoxRunResult).result.length
        = (Box.mk [0] [1]).lower.length ∧
    ∀ i, i < (Box.mk [0] [1]).lower.length →
      (Box.mk [0] [1]).lower.getD i 0 <
        ({ result := bijForwardVec [0] [1] [1], warnings := [] } :
          BoxRunResult).result.getD i 0 ∧
      ({ result := bijForwardVec [0] [1] [1], warnings := [] } :
          BoxRunResult).result.getD i 0 <
        (Box.mk [0] [1]).upper.getD i 0 :=
  box_optimize_strictly_inside ⟨[0], [1]⟩ (fun _ => [[1 / 2]])
    (fun _ _ => ⟨[1], true⟩) (fun pts => pts.map (fun _ => [0]))
    ⟨bijForwardVec [0] [1] [1], []⟩ rfl
    (by
      intro i hi
      simp only [List.length_cons, List.length_nil] at hi
      have h0 : i = 0 := by omega
      subst h0
      norm_num)
    (fun _ _ => rfl) rfl

/-- Claim C6: non-convergence of L-BFGS is not fatal: the box maximizer still
succeeds, returning exactly the forward transform of the optimizer's final
position (on every run, converged or not), and on non-convergence it emits
the warning. -/
theorem box_nonconvergence_warning (space : Box)
    (sample : Nat → List (List ℝ))
    (target_func : List (List ℝ) → List (List ℝ)) (r : LbfgsResult)
    (hshape : ((target_func (boxTrialSpace space sample).points).all
      (fun row => row.length == 1)) = true) :
    ∃ res, boxOptimize space sample (fun _ _ => r) target_func = .ok res ∧
      res.result = bijForwardVec space.lower space.upper r.position ∧
      (r.converged = false → res.warnings = [lbfgsWarning]) ∧
      (r.converged = true → res.warnings = []) := by
  refine ⟨⟨bijForwardVec space.lower space.upper r.position,
    if r.converged then [] else [lbfgsWarning]⟩, ?_, rfl, ?_, ?_⟩
  · rw [boxOptimize, discreteSpaceOptimize]
    simp only [hshape]
    rfl
  · intro h
    simp only [h, Bool.false_eq_true, if_false]
  · intro h
    simp only [h, if_true]

/-- Concrete run of claim C6: a non-converged L-BFGS outcome on the unit box
still yields a result (the forward-transformed final position) together with
the non-convergence warning. -/
theorem box_nonconvergence_warning_witness :
    ∃ res, boxOptimize ⟨[0], [1]⟩ (fun _ => [[1 / 2]])
        (fun _ _ => ⟨[0], false⟩) (fun pts => pts.map (fun _ => [0])) = .ok res ∧
      res.result = bijForwardVec [0] [1] [0] ∧
      (false = false → res.warnings = [lbfgsWarning]) ∧
      (false = true → res.warnings = []) :=
  box_nonconvergence_warning ⟨[0], [1]⟩ (fun _ => [[1 / 2]])
    (fun pts => pts.map (fun _ => [0])) ⟨[0], false⟩ rfl

/-- Claim C4: the box maximizer discretizes the box with exactly
`min(2000, 500 * D)` low-discrepancy samples, where `D` is the box's
dimensionality; in particular `500` for `D = 1`, `2000` at the cap boundary
`D = 4`, and `2000` (capped) for `D = 5`. -/
theorem box_discretization_budget (space : Box)
    (sample : Nat → List (List ℝ)) (hs : ∀ n, (sample n).length = n) :
    (boxTrialSpace space sample).points.length =
      min 2000 (500 * space.lower.length) ∧
    (space.lower.length = 1 → (boxTrialSpace space sample).points.length = 500) ∧
    (space.lower.length = 4 → (boxTrialSpace space sample).points.length = 2000) ∧
    (space.lower.length = 5 → (boxTrialSpace space sample).points.length = 2000) := by
  have hbase : (boxTrialSpace space sample).points.length =
      min 2000 (500 * space.lower.length) := by
    simpa [boxTrialSpace, discretizationBudget] using
      hs (discretizationBudget space.lower.length)
  refine ⟨hbase, ?_, ?_, ?_⟩ <;> intro hd <;> rw [hbase, hd] <;> norm_num

/-- Concrete run of claim C4: a one-dimensional box with a length-faithful
sampler uses a budget of `min 2000 500 = 500` trial points. -/
theorem box_discretization_budget_witness :
    (boxTrialSpace ⟨[0], [1]⟩ (fun n => List.replicate n [])).points.length =
      min 2000 (500 * ([(0 : ℝ)]).length) ∧
    (([(0 : ℝ)]).length = 1 →
      (boxTrialSpace ⟨[0], [1]⟩ (fun n => List.replicate n [])).points.length = 500) ∧
    (([(0 : ℝ)]).length = 4 →
      (boxTrialSpace ⟨[0], [1]⟩ (fun n => List.replicate n [])).points.length = 2000) ∧
    (([(0 : ℝ)]).length = 5 →
      (boxTrialSpace ⟨[0], [1]⟩ (fun n => List.replicate n [])).points.length = 2000) :=
  box_discretization_budget ⟨[0], [1]⟩ (fun n => List.replicate n [])
    (fun n => List.length_replicate n [])

/-- Claim C7: the internal objective handed to the local optimizer is the
negated, forward-transformed acquisition score with the trailing singleton
dimension squeezed away — a plain scalar: whenever the acquisition function
scores the forward-transformed point as `[[s]]`, the objective value is
`-s`. -/
theorem box_objective_negated (space : Box)
    (target_func : List (List ℝ) → List (List ℝ)) (x : List ℝ) (s : ℝ)
    (h : target_func [bijForwardVec space.lower space.upper x] = [[s]]) :
    boxObjective space target_func x = -s := by
  rw [boxObjective, h]
  rfl

/-- Concrete run of claim C7: a constant acquisition function with score `3`
yields the internal objective value `-3`. -/
theorem box_objective_negated_witness :
    boxObjective ⟨[0], [1]⟩ (fun _ => [[3]]) [0] = -3 :=
  box_objective_negated ⟨[0], [1]⟩ (fun _ => [[3]]) [0] 3 rfl

/-- Claim C8: the domain transform round-trips: for every point strictly
inside the box (`lower < p < upper` elementwise),
`bijector.forward (bijector.inverse p) = p`. -/
theorem bijector_roundtrip (lo hi p : List ℝ)
    (hl1 : lo.length = p.length) (hl2 : hi.length = p.length)
    (hin : ∀ i, i < p.length →
      lo.getD i 0 < p.getD i 0 ∧ p.getD i 0 < hi.getD i 0) :
    bijForwardVec lo hi (bijInverseVec lo hi p) = p := by
  induction p generalizing lo hi with
  | nil =>
    have hlo : lo = [] := List.length_eq_zero.mp (by simpa using hl1)
    have hhi : hi = [] := List.length_eq_zero.mp (by simpa using hl2)
    subst hlo
    subst hhi
    rfl
  | cons q qs ih =>
    obtain ⟨a, lo', rfl⟩ : ∃ a lo', lo = a :: lo' := by
      cases lo with
      | nil => exact absurd hl1 (by simp)
      | cons a lo' => exact ⟨a, lo', rfl⟩
    obtain ⟨b, hi', rfl⟩ : ∃ b hi', hi = b :: hi' := by
      cases hi with
      | nil => exact absurd hl2 (by simp)
      | cons b hi' => exact ⟨b, hi', rfl⟩
    have hhead := hin 0 (Nat.succ_pos _)
    simp only [List.getD_cons_zero] at hhead
    have htail : bijForwardVec lo' hi' (bijInverseVec lo' hi' qs) = qs :=
      ih lo' hi' (by simpa using hl1) (by simpa using hl2)
        (fun i hilt => by
          have := hin (i + 1) (Nat.succ_lt_succ hilt)
          simpa only [List.getD_cons_succ] using this)
    show bijForward a b (bijInverse a b q) ::
      bijForwardVec lo' hi' (bijInverseVec lo' hi' qs) = q :: qs
    rw [htail, bijForward_bijInverse a b q hhead.1 hhead.2]

/-- Concrete run of claim C8: the midpoint `1 / 2` of the unit interval
round-trips through the bijector. -/
theorem bijector_roundtrip_witness :
    bijForwardVec [0] [1] (bijInverseVec [0] [1] [1 / 2]) = [1 / 2] :=
  bijector_roundtrip [0] [1] [1 / 2] rfl rfl
    (by
      intro i hilt
      simp only [List.length_cons, List.length_nil] at hilt
      have h0 : i = 0 := by omega
      subst h0
      norm_num)

/-- Claim C5, counterexample: invoking `optimize` on a search-space variant
with no registered strategy does not fail — `functools.singledispatch` falls
through to the base `optimize` function, whose body is only a docstring, so
the call succeeds and returns Python `None`. -/
theorem optimize_unregistered_counterexample :
    optimize AnySearchSpace.unregistered (fun _ => [])
      (fun _ _ => ⟨[], true⟩) (fun _ => []) = .ok none := rfl

/-- Claim C5 (amended): for every acquisition function, sampler and local
optimizer, dispatching `optimize` on an unregistered search-space variant
raises nothing and silently returns `None` rather than a point. -/
theorem optimize_unregistered_returns_none (sample : Nat → List (List ℝ))
    (lbfgs : (List ℝ → ℝ) → List ℝ → LbfgsResult)
    (target_func : List (List ℝ) → List (List ℝ)) :
    optimize AnySearchSpace.unregistered sample lbfgs target_func =
      .ok none := rfl

/-- Claim C9: when `build_sqexp_deep_inv_wishart` must pad the query points
(`num_inducing` exceeds their number) and its `search_space` argument is a
non-`Box` value, it fails with the `ValueError` immediately — for any
observations, even invalid ones, since the padding check precedes the
observation checks — and no model is constructed. -/
theorem build_invalid_search_space (query_points : List (List ℚ))
    (num_layers num_inducing : Nat) (observations : Option (List (List ℚ)))
    (hpad : query_points.length < num_inducing) :
    build_sqexp_deep_inv_wishart query_points num_layers num_inducing
      observations (some PySearchSpace.nonBox) =
      .error "Currently only `Box` instances are supported for `search_space`." := by
  rw [build_sqexp_deep_inv_wishart]
  simp only [gt_iff_lt, if_pos hpad]
  intro lower upper h
  exact PySearchSpace.noConfusion h

/-- Concrete run of claim C9: one query point, two inducing points, a
non-`Box` search space, and observations that are themselves invalid (wrong
output dimension): the search-space `ValueError` wins. -/
theorem build_invalid_search_space_witness :
    build_sqexp_deep_inv_wishart [[0]] 2 2 (some [[0, 0]])
      (some PySearchSpace.nonBox) =
      .error "Currently only `Box` instances are supported for `search_space`." :=
  build_invalid_search_space [[0]] 2 2 (some [[0, 0]]) (by decide)

end Trieste
